import Mathlib

/-!
A shallow embedding of the sdcvalidatorJS classification-and-injection engine
(src/sdc4/constants.ts, src/sdc4/error-mapper.ts, src/sdc4/instance-modifier.ts,
src/utils/namespaces.ts, src/utils/xpath.ts, src/sdc4/validator.ts,
src/core/schema.ts), together with theorems settling the spec claims.

Conventions of the embedding:
- JavaScript strings become Lean `String`; `msg.includes(p)` becomes the
  executable substring test `containsStr msg p`; the regular expressions used
  by the default rules are unfolded into equivalent executable predicates.
- A rule condition that may throw is modelled as `ValidationError → Option Bool`
  where `none` stands for a thrown exception (the engine catches it).
- The mutable DOM becomes the inductive tree `XNode`; mutation becomes
  functional update; `cloneDocument` becomes the identity on the functional
  tree.  Raw XPath evaluation (the external `xpath` package) is modelled for
  the absolute child-step paths the engine feeds it.
- Asynchronous boundary effects (schema load, external validator, file IO) are
  modelled by passing their results in explicitly; instrumentation fields
  (`schemaLoaded`, `validatorInvoked`, `injected`) record which boundary calls
  the control flow reaches.
-/

namespace SDCV

/-! ## Taxonomy (src/sdc4/constants.ts) -/

/-- The 15 ISO-21090 based ExceptionalValue types (closed enum). -/
inductive ExceptionalValueType where
  | INV | OTH | NI | NA | UNC | UNK | ASKU | ASKR
  | NASK | NAV | MSK | DER | PINF | NINF | TRC
deriving DecidableEq, Repr

/-- All 15 variants, in the order of the source enum declaration. -/
def allEVTypes : List ExceptionalValueType :=
  [.INV, .OTH, .NI, .NA, .UNC, .UNK, .ASKU, .ASKR,
   .NASK, .NAV, .MSK, .DER, .PINF, .NINF, .TRC]

/-- Metadata record for each ExceptionalValue type. -/
structure ExceptionalValueMetadata where
  code : String
  name : String
  description : String
deriving DecidableEq, Repr

/-- The EXCEPTIONAL_VALUE_METADATA record (total lookup). -/
def EXCEPTIONAL_VALUE_METADATA : ExceptionalValueType → ExceptionalValueMetadata
  | .INV => ⟨"INV", "Invalid",
      "The value does not conform to the expected type, format, or constraints defined in the schema."⟩
  | .OTH => ⟨"OTH", "Other",
      "The value is valid but does not match any of the expected enumerated values."⟩
  | .NI => ⟨"NI", "No Information",
      "A required value is missing or no information is available."⟩
  | .NA => ⟨"NA", "Not Applicable",
      "Content is present but is not expected or applicable in this context."⟩
  | .UNC => ⟨"UNC", "Unencoded",
      "The value contains invalid characters or encoding errors."⟩
  | .UNK => ⟨"UNK", "Unknown",
      "The value is explicitly marked as unknown."⟩
  | .ASKU => ⟨"ASKU", "Asked but Unknown",
      "The information was requested but the respondent did not know the answer."⟩
  | .ASKR => ⟨"ASKR", "Asked and Refused",
      "The information was requested but the respondent refused to provide it."⟩
  | .NASK => ⟨"NASK", "Not Asked",
      "The information was not requested or collected."⟩
  | .NAV => ⟨"NAV", "Not Available",
      "The information is not currently available but may become available later."⟩
  | .MSK => ⟨"MSK", "Masked",
      "The data has been hidden or masked for privacy or security reasons."⟩
  | .DER => ⟨"DER", "Derived",
      "The value has been calculated or derived from other values."⟩
  | .PINF => ⟨"PINF", "Positive Infinity",
      "The numeric value exceeds the maximum representable value."⟩
  | .NINF => ⟨"NINF", "Negative Infinity",
      "The numeric value is below the minimum representable value."⟩
  | .TRC => ⟨"TRC", "Trace",
      "The value is present in trace amounts (too small to measure accurately)."⟩

/-- SDC4_NAMESPACE constant. -/
def SDC4_NAMESPACE : String := "https://semanticdatacharter.com/ns/sdc4/"

/-- DEFAULT_NAMESPACE_PREFIX constant (named defaultNsPfx here). -/
def defaultNsPfx : String := "sdc4"

/-! ## String helpers modelling the JavaScript string operations -/

/-- `pat` occurs in `cs` starting at index `i` (executable). -/
def listSubstrAt (cs pat : List Char) (i : Nat) : Bool :=
  decide ((cs.drop i).take pat.length = pat)

/-- `pat` occurs somewhere in `cs` (executable substring test). -/
def listContains (cs pat : List Char) : Bool :=
  (List.range (cs.length + 1)).any (listSubstrAt cs pat)

/-- JavaScript `s.includes(pat)`. -/
def containsStr (s pat : String) : Bool :=
  listContains s.data pat.data

/-- A character at index `i` of `cs` that is a decimal digit. -/
def digitAt (cs : List Char) (i : Nat) : Bool :=
  match cs.drop i with
  | c :: _ => c.isDigit
  | [] => false

/-- The regular expression test `/minimum .* is \d+/.test(msg)`:
some occurrence of "minimum " is followed (at distance ≥ its length)
by " is " followed immediately by a digit. -/
def matchesMinimumIs (s : String) : Bool :=
  let cs := s.data
  (List.range (cs.length + 1)).any fun i =>
    listSubstrAt cs "minimum ".data i &&
    ((List.range (cs.length + 1)).any fun j =>
      decide (i + 8 ≤ j) && listSubstrAt cs " is ".data j && digitAt cs (j + 4))

/-! ## ValidationError and the rule engine (src/sdc4/error-mapper.ts) -/

/-- ValidationError record produced by the external validator capability. -/
structure ValidationError where
  message : String
  path : Option String := none
  line : Option Int := none
  column : Option Int := none
  type : Option String := none
deriving DecidableEq, Repr

/-- MappingRule: a condition (which may throw: `none` models a thrown
exception), a result type and a priority. -/
structure MappingRule where
  condition : ValidationError → Option Bool
  evType : ExceptionalValueType
  priority : Int

/-- Stable insertion into a priority-ascending list: the new rule goes after
every rule of smaller-or-equal priority, as JavaScript stable sort does. -/
def insertRule (r : MappingRule) : List MappingRule → List MappingRule
  | [] => [r]
  | x :: xs => if x.priority ≤ r.priority then x :: insertRule r xs else r :: x :: xs

/-- Model of `rules.sort((a, b) => a.priority - b.priority)`: a stable sort
ascending by priority. -/
def sortRules (l : List MappingRule) : List MappingRule :=
  l.foldl (fun acc r => insertRule r acc) []

/-- The ErrorMapper state: its rule list. -/
structure ErrorMapper where
  rules : List MappingRule

/-- `ErrorMapper.addRule`: push the rule, then re-sort by priority. -/
def ErrorMapper.addRule (m : ErrorMapper)
    (condition : ValidationError → Option Bool)
    (evType : ExceptionalValueType) (priority : Int) : ErrorMapper :=
  ⟨sortRules (m.rules ++ [⟨condition, evType, priority⟩])⟩

/-- `ErrorMapper.clearRules`. -/
def ErrorMapper.clearRules (_m : ErrorMapper) : ErrorMapper := ⟨[]⟩

/-- `ErrorMapper.getRuleCount`. -/
def ErrorMapper.getRuleCount (m : ErrorMapper) : Nat := m.rules.length

/-- The loop body of `ErrorMapper.mapError`: first rule whose condition
evaluates to true wins; a thrown condition (`none`) is skipped; the fixed
fallback is NI. -/
def mapErrorList : List MappingRule → ValidationError → ExceptionalValueType
  | [], _ => .NI
  | r :: rs, e =>
    match r.condition e with
    | some true => r.evType
    | _ => mapErrorList rs e

/-- `ErrorMapper.mapError`. -/
def ErrorMapper.mapError (m : ErrorMapper) (e : ValidationError) : ExceptionalValueType :=
  mapErrorList m.rules e

/-- Rule 1 condition: missing/required-content patterns. -/
def rule1cond (e : ValidationError) : Bool :=
  let msg := e.message.toLower
  containsStr msg "missing required" ||
  (containsStr msg "required" && containsStr msg "missing") ||
  (containsStr msg "element" && containsStr msg "required") ||
  (containsStr msg "content" && containsStr msg "not complete") ||
  matchesMinimumIs msg

/-- Rule 2 condition: type violations. -/
def rule2cond (e : ValidationError) : Bool :=
  let msg := e.message.toLower
  containsStr msg "not a valid value" ||
  containsStr msg "invalid value" ||
  containsStr msg "is not valid for type" ||
  (containsStr msg "type" && containsStr msg "does not match") ||
  containsStr msg "cannot be converted" ||
  containsStr msg "expected type" ||
  containsStr msg "wrong type" ||
  (containsStr msg "invalid" && containsStr msg "format") ||
  containsStr msg "malformed" ||
  (match e.type with
   | some t => containsStr t.toLower "decode"
   | none => false)

/-- Rule 3 condition: constraint/facet violations. -/
def rule3cond (e : ValidationError) : Bool :=
  let msg := e.message.toLower
  (containsStr msg "pattern" && containsStr msg "not matched") ||
  containsStr msg "does not match pattern" ||
  containsStr msg "length constraint" ||
  (containsStr msg "minlength" || containsStr msg "maxlength") ||
  (containsStr msg "mininclusive" || containsStr msg "maxinclusive") ||
  (containsStr msg "minexclusive" || containsStr msg "maxexclusive") ||
  (containsStr msg "totaldigits" || containsStr msg "fractiondigits") ||
  (containsStr msg "assertion" && containsStr msg "failed") ||
  (containsStr msg "constraint" && containsStr msg "violated") ||
  (containsStr msg "exceeds" && containsStr msg "maximum") ||
  (containsStr msg "below" && containsStr msg "minimum")

/-- Rule 4 condition: enumeration violations. -/
def rule4cond (e : ValidationError) : Bool :=
  let msg := e.message.toLower
  containsStr msg "not in enumeration" ||
  (containsStr msg "not" && containsStr msg "allowed value") ||
  (containsStr msg "not" && containsStr msg "permitted value") ||
  containsStr msg "invalid enumeration" ||
  (containsStr msg "value" && containsStr msg "not" && containsStr msg "allowed")

/-- Rule 5 condition: unexpected content. -/
def rule5cond (e : ValidationError) : Bool :=
  let msg := e.message.toLower
  containsStr msg "unexpected" ||
  (containsStr msg "not allowed" && !containsStr msg "value") ||
  (containsStr msg "not permitted" && !containsStr msg "value") ||
  containsStr msg "extra element" ||
  containsStr msg "unknown element" ||
  (containsStr msg "element" && containsStr msg "not expected")

/-- Rule 6 condition: encoding errors. -/
def rule6cond (e : ValidationError) : Bool :=
  let msg := e.message.toLower
  containsStr msg "encoding error" ||
  containsStr msg "decode error" ||
  (containsStr msg "character" && containsStr msg "not" && containsStr msg "allowed") ||
  containsStr msg "invalid character" ||
  containsStr msg "whitespace"

/-- The ErrorMapper constructor state: the seven default rules added in
source order, with the source priorities. -/
def defaultErrorMapper : ErrorMapper :=
  ((((((ErrorMapper.addRule ⟨[]⟩ (fun e => some (rule1cond e)) .NI 10).addRule
      (fun e => some (rule2cond e)) .INV 20).addRule
      (fun e => some (rule3cond e)) .INV 30).addRule
      (fun e => some (rule4cond e)) .OTH 40).addRule
      (fun e => some (rule5cond e)) .NA 50).addRule
      (fun e => some (rule6cond e)) .UNC 60).addRule
      (fun _ => some true) .NI 1000

/-! ## DOM model

An XML tree node: an element (namespace URI, qualified node name, local name,
attribute list, child list), a text node, or a comment node.  A Document is
represented by its document element (`cloneDocument` is the identity on this
functional representation). -/

inductive XNode : Type where
  | element (ns : Option String) (name : String) (localName : String)
      (attrs : List (String × String)) (children : List XNode)
  | text (s : String)
  | comment (s : String)
deriving Repr

/-- Direct children of a node (empty for text/comment). -/
def XNode.childrenOf : XNode → List XNode
  | .element _ _ _ _ cs => cs
  | _ => []

/-- Attribute list of a node (empty for text/comment). -/
def XNode.attrsOf : XNode → List (String × String)
  | .element _ _ _ a _ => a
  | _ => []

/-- The node with its children erased: its "shape" (constructor, namespace,
names, attributes, or text/comment payload). -/
def XNode.shapeOf : XNode → XNode
  | .element ns n l a _ => .element ns n l a []
  | t => t

/-- Is this node an element whose nodeName is `s` (XPath child-step match)? -/
def XNode.hasName (t : XNode) (s : String) : Bool :=
  match t with
  | .element _ n _ _ _ => n == s
  | _ => false

/-- A whitespace-only text node. -/
def isWsText : XNode → Bool
  | .text s => s.data.all Char.isWhitespace
  | _ => false

/-! ## Namespace utilities (src/utils/namespaces.ts) -/

/-- `ensureSDC4Namespace(doc, prefix)`: add `xmlns:<pfx>` on the document
element when it is not already present (set semantics of `setAttribute` on a
fresh name: appended at the end of the attribute list). -/
def ensureSDC4Namespace (doc : XNode) (pfx : String) : XNode :=
  match doc with
  | .element ns n l attrs cs =>
    let nsAttr := "xmlns:" ++ pfx
    if attrs.any (fun a => a.1 == nsAttr) then .element ns n l attrs cs
    else .element ns n l (attrs ++ [(nsAttr, SDC4_NAMESPACE)]) cs
  | t => t

/-- `createNamespacedElement(doc, tagName, prefix)`. -/
def createNamespacedElement (tagName : String) (pfx : String) : XNode :=
  .element (some SDC4_NAMESPACE) (pfx ++ ":" ++ tagName) tagName [] []

/-- `isExceptionalValueElement`: SDC4 namespace and a local name that is one
of the 15 classification codes. -/
def isExceptionalValueElement : XNode → Bool
  | .element (some ns) _ l _ _ =>
    ns == SDC4_NAMESPACE &&
    (l == "INV" || l == "OTH" || l == "NI" || l == "NA" || l == "UNC" ||
     l == "UNK" || l == "ASKU" || l == "ASKR" || l == "NASK" || l == "NAV" ||
     l == "MSK" || l == "DER" || l == "PINF" || l == "NINF" || l == "TRC")
  | _ => false

mutual
/-- `removeExceptionalValues`: detach every ExceptionalValue element found by
the depth-first walk.  The imperative collect-then-detach pass is equivalent,
on the resulting document, to this recursive filter. -/
def removeExceptionalValues : XNode → XNode
  | .element ns n l a cs => .element ns n l a (removeEVList cs)
  | t => t

def removeEVList : List XNode → List XNode
  | [] => []
  | c :: cs =>
    if isExceptionalValueElement c then removeEVList cs
    else removeExceptionalValues c :: removeEVList cs
end

mutual
/-- Drop whitespace-only text nodes everywhere (the "structural equivalence
modulo whitespace-only text nodes" normal form). -/
def stripWs : XNode → XNode
  | .element ns n l a cs => .element ns n l a (stripWsList cs)
  | t => t

def stripWsList : List XNode → List XNode
  | [] => []
  | c :: cs => if isWsText c then stripWsList cs else stripWs c :: stripWsList cs
end

mutual
/-- No ExceptionalValue marker element anywhere in the tree. -/
def cleanNode : XNode → Bool
  | .element ns n l a cs => !isExceptionalValueElement (.element ns n l a cs) && cleanList cs
  | _ => true

def cleanList : List XNode → Bool
  | [] => true
  | c :: cs => cleanNode c && cleanList cs
end

/-! ## XPath model (src/utils/xpath.ts and the external xpath package)

The engine only feeds the resolver absolute child-step paths such as
"/root/person".  `descend` models `xpath.select1` for those: at each step take
the first child whose node name equals the step. -/

/-- JavaScript `s.split(sep)` for a one-character separator, over character
lists. -/
def splitOnChar (sep : Char) : List Char → List (List Char)
  | [] => [[]]
  | c :: rest =>
    if c = sep then [] :: splitOnChar sep rest
    else
      match splitOnChar sep rest with
      | s :: ss => (c :: s) :: ss
      | [] => [[c]]

/-- Segments of an xpath: split on "/" and drop empty parts
(matches `xpath.split('/').filter(p => p.length > 0)`). -/
def segsOf (xpath : String) : List String :=
  ((splitOnChar '/' xpath.data).map String.mk).filter (fun p => p.length > 0)

/-- Resolve a list of child steps starting below `t`. -/
def descend : List String → XNode → Option XNode
  | [], t => some t
  | s :: rest, t =>
    match t.childrenOf.find? (fun c => c.hasName s) with
    | some c => descend rest c
    | none => none

/-- Apply `g` to the first child whose node name is `s`; leave the list
unchanged when there is none. -/
def updateChild (s : String) (g : XNode → XNode) : List XNode → List XNode
  | [] => []
  | c :: cs => if c.hasName s then g c :: cs else c :: updateChild s g cs

/-- Functional counterpart of mutating the node resolved by `descend`:
apply `f` at the resolved node, or return the tree unchanged when resolution
fails at any step. -/
def updateAt : List String → (XNode → XNode) → XNode → XNode
  | [], f, t => f t
  | s :: rest, f, .element ns n l a cs =>
      .element ns n l a (updateChild s (updateAt rest f) cs)
  | _ :: _, _, t => t

/-! ## InstanceModifier (src/sdc4/instance-modifier.ts) -/

/-- ErrorLocation: the unit the mutator consumes. -/
structure ErrorLocation where
  xpath : String
  evType : ExceptionalValueType
  reason : String
deriving Repr

/-- `getParentPath`: drop the last non-empty segment; one or fewer segments
resolve to "/". -/
def getParentPath (xpath : String) : String :=
  let parts := segsOf xpath
  if parts.length ≤ 1 then "/"
  else "/" ++ String.intercalate "/" parts.dropLast

/-- `groupErrorsByParent`: a JavaScript `Map` keeps first-insertion key order,
and each group keeps encounter order. -/
def groupErrorsByParent (errors : List ErrorLocation) : List (String × List ErrorLocation) :=
  errors.foldl
    (fun groups err =>
      let pp := getParentPath err.xpath
      if groups.any (fun g => g.1 == pp) then
        groups.map (fun g => if g.1 == pp then (g.1, g.2 ++ [err]) else g)
      else groups ++ [(pp, [err])])
    []

/-- `createExceptionalValueElement`: `<pfx:CODE>` containing an
`<pfx:ev-name>` child with the display name, and, when the reason string is
non-empty (JavaScript truthiness), two formatting text nodes around a comment
node carrying " Validation error: <reason> ". -/
def createExceptionalValueElement (pfx : String) (err : ErrorLocation) : XNode :=
  let md := EXCEPTIONAL_VALUE_METADATA err.evType
  let nameElement : XNode := .element (some SDC4_NAMESPACE) (pfx ++ ":" ++ "ev-name") "ev-name"
    [] [.text md.name]
  let base : List XNode := [nameElement]
  let kids : List XNode :=
    if err.reason ≠ "" then
      base ++ [.text "\n  ", .comment (" Validation error: " ++ err.reason ++ " "), .text "\n"]
    else base
  .element (some SDC4_NAMESPACE) (pfx ++ ":" ++ md.code) md.code [] kids

/-- `insertElement`: when the parent has a first child, insert the new element
before it and then a formatting text node before the new element; otherwise
append the new element. -/
def insertElement (newElement : XNode) : XNode → XNode
  | .element ns n l a [] => .element ns n l a [newElement]
  | .element ns n l a (c :: cs) => .element ns n l a (.text "\n  " :: newElement :: c :: cs)
  | t => t

/-- The per-group mutation of `injectAtLocation` applied at the resolved
parent: each error (in group order) gets its marker inserted. -/
def insertGroup (pfx : String) (errs : List ErrorLocation) (parent : XNode) : XNode :=
  errs.foldl (fun p err => insertElement (createExceptionalValueElement pfx err) p) parent

/-- `injectAtLocation`: resolve the parent via `findElement` ("/" or "" is the
document element, otherwise the XPath resolver), then insert every marker of
the group; an unresolved parent is logged and skipped (document unchanged). -/
def injectAtLocation (pfx : String) (parentPath : String) (errs : List ErrorLocation)
    (doc : XNode) : XNode :=
  if parentPath == "/" || parentPath == "" then insertGroup pfx errs doc
  else
    match segsOf parentPath with
    | [] => doc
    | s :: rest =>
      if doc.hasName s then updateAt rest (insertGroup pfx errs) doc else doc

/-- `injectExceptionalValues`: ensure the namespace declaration, group the
errors by parent path, and inject group by group. -/
def injectExceptionalValues (pfx : String) (doc : XNode) (errors : List ErrorLocation) : XNode :=
  let doc := ensureSDC4Namespace doc pfx
  (groupErrorsByParent errors).foldl
    (fun d g => injectAtLocation pfx g.1 g.2 d) doc

/-! ## Error summaries (src/sdc4/error-mapper.ts getErrorSummary, src/types) -/

/-- ErrorSummary returned by `getErrorSummary`. -/
structure ErrorSummary where
  xpath : String
  errorType : String
  reason : String
  exceptionalValueType : String
  exceptionalValueName : String
  description : String
deriving DecidableEq, Repr

/-- JavaScript `x || d` on an optional string field: `undefined` and the empty
string are both falsy. -/
def strOr (x : Option String) (d : String) : String :=
  match x with
  | some s => if s == "" then d else s
  | none => d

/-- `ErrorMapper.getErrorSummary(error, evType?)`. -/
def ErrorMapper.getErrorSummary (m : ErrorMapper) (e : ValidationError)
    (evType : Option ExceptionalValueType) : ErrorSummary :=
  let mappedType :=
    match evType with
    | some t => t
    | none => m.mapError e
  let md := EXCEPTIONAL_VALUE_METADATA mappedType
  { xpath := strOr e.path "/"
    errorType := strOr e.type "validation-error"
    reason := e.message
    exceptionalValueType := md.code
    exceptionalValueName := md.name
    description := md.description }

/-- ValidationErrorWithMapping: an ErrorSummary plus optional line/column. -/
structure ValidationErrorWithMapping extends ErrorSummary where
  line : Option Int := none
  column : Option Int := none
deriving DecidableEq, Repr

/-! ## Orchestrator (src/sdc4/validator.ts)

The external boundary results are passed in explicitly: `errors` is the list
the external validator capability would return, and the run records record
which boundary calls the control flow actually reaches. -/

/-- Validation mode (src/core/validator.ts). -/
inductive ValidationMode where
  | strict | lax | skip
deriving DecidableEq, Repr

/-- Result and trace of one `validateWithRecovery` call. -/
structure RecoveryRun where
  result : Except String XNode
  injected : List ErrorLocation
  schemaLoaded : Bool
  validatorInvoked : Bool

/-- The aggregate failure message thrown in STRICT mode:
`Validation failed with ${errors.length} error(s): ${errors[0]?.message}`. -/
def strictFailureMessage (errors : List ValidationError) : String :=
  "Validation failed with " ++ toString errors.length ++ " error(s): " ++
    (match errors with
     | [] => "undefined"
     | e :: _ => e.message)

/-- `SDC4Validator.validateWithRecovery`: parse (given), clone (identity),
optionally strip existing markers, return early in SKIP mode, otherwise load
the schema and validate; STRICT with errors throws; otherwise map the errors
to locations and inject. -/
def validateWithRecovery (mode : ValidationMode) (m : ErrorMapper) (pfx : String)
    (errors : List ValidationError) (removeExistingEV : Bool) (doc : XNode) : RecoveryRun :=
  let modifiedDoc := if removeExistingEV then removeExceptionalValues doc else doc
  if mode = ValidationMode.skip then
    { result := .ok modifiedDoc, injected := [], schemaLoaded := false, validatorInvoked := false }
  else if mode = ValidationMode.strict ∧ 0 < errors.length then
    { result := .error (strictFailureMessage errors), injected := [],
      schemaLoaded := true, validatorInvoked := true }
  else if 0 < errors.length then
    let errorLocations := errors.map fun e =>
      { xpath := strOr e.path "/", evType := m.mapError e, reason := e.message : ErrorLocation }
    { result := .ok (injectExceptionalValues pfx modifiedDoc errorLocations),
      injected := errorLocations, schemaLoaded := true, validatorInvoked := true }
  else
    { result := .ok modifiedDoc, injected := [], schemaLoaded := true, validatorInvoked := true }

/-- Result and trace of one `iterErrorsWithMapping` run (the lazy sequence,
fully materialised: the full error batch exists before iteration begins). -/
structure IterRun where
  summaries : List ValidationErrorWithMapping
  schemaLoaded : Bool
  validatorInvoked : Bool

/-- `SDC4Validator.iterErrorsWithMapping`. -/
def iterErrorsWithMapping (mode : ValidationMode) (m : ErrorMapper)
    (errors : List ValidationError) : IterRun :=
  if mode = ValidationMode.skip then
    { summaries := [], schemaLoaded := false, validatorInvoked := false }
  else
    { summaries := errors.map fun e =>
        let evType := m.mapError e
        { toErrorSummary := m.getErrorSummary e (some evType)
          line := e.line, column := e.column }
      schemaLoaded := true, validatorInvoked := true }

/-- ValidationReport; the per-type counts are an association list keyed by the
classification code strings, as the JavaScript record is. -/
structure ValidationReport where
  valid : Bool
  errorCount : Nat
  errors : List ValidationErrorWithMapping
  exceptionalValueTypeCounts : List (String × Nat)
deriving DecidableEq, Repr

/-- The 15 code strings in the order of the `typeCounts` record literal. -/
def allCodeStrings : List String :=
  ["INV", "OTH", "NI", "NA", "UNC", "UNK", "ASKU", "ASKR",
   "NASK", "NAV", "MSK", "DER", "PINF", "NINF", "TRC"]

/-- The `typeCounts` record initialised with all 15 codes at 0. -/
def initTypeCounts : List (String × Nat) := allCodeStrings.map fun c => (c, 0)

/-- `if (evType in typeCounts) typeCounts[evType]++`. -/
def bumpCount (counts : List (String × Nat)) (k : String) : List (String × Nat) :=
  if counts.any (fun c => c.1 == k) then
    counts.map (fun c => if c.1 == k then (c.1, c.2 + 1) else c)
  else counts

/-- `SDC4Validator.validateAndReport`: consume the mapped-error stream fully,
counting per classification code. -/
def validateAndReport (mode : ValidationMode) (m : ErrorMapper)
    (errors : List ValidationError) : ValidationReport :=
  let collected := (iterErrorsWithMapping mode m errors).summaries
  let typeCounts := collected.foldl (fun acc e => bumpCount acc e.exceptionalValueType)
    initTypeCounts
  { valid := collected.length == 0
    errorCount := collected.length
    errors := collected
    exceptionalValueTypeCounts := typeCounts }

/-! ## Schema cache (src/core/schema.ts)

The process-wide cache is an association list from key to cached schema; file
reads are an external capability passed in as `readFileF`.  Only string
sources are modelled (`Buffer` sources take the same content path). -/

/-- The test `source.trim().startsWith('<')`: after removing leading (and
trailing) whitespace the string starts with "<", i.e. the first non-whitespace
character is "<". -/
def isContentSource (s : String) : Bool :=
  match s.data.dropWhile Char.isWhitespace with
  | c :: _ => c == '<'
  | [] => false

/-- One `loadSchema` step on a string source: returns the loaded schema and
the updated cache. -/
def loadSchema (readFileF : String → String) (cache : List (String × String))
    (source : String) (useCache : Bool) : String × List (String × String) :=
  if isContentSource source then
    let cacheKey := "content:" ++ source.take 100
    match (if useCache then (cache.find? (fun c => c.1 == cacheKey)).map Prod.snd else none) with
    | some schema => (schema, cache)
    | none =>
      (source, if useCache then cache ++ [(cacheKey, source)] else cache)
  else
    let cacheKey := "file:" ++ source
    match (if useCache then (cache.find? (fun c => c.1 == cacheKey)).map Prod.snd else none) with
    | some schema => (schema, cache)
    | none =>
      let schemaContent := readFileF source
      (schemaContent, if useCache then cache ++ [(cacheKey, schemaContent)] else cache)

/-! ## Helper lemmas -/

theorem evType_mem_allEVTypes (t : ExceptionalValueType) : t ∈ allEVTypes := by
  cases t <;> simp [allEVTypes]

theorem mapErrorList_skip (r : MappingRule) (rs : List MappingRule) (e : ValidationError)
    (h : r.condition e ≠ some true) : mapErrorList (r :: rs) e = mapErrorList rs e := by
  cases hc : r.condition e with
  | none => simp [mapErrorList, hc]
  | some b =>
    cases b with
    | true => exact absurd hc h
    | false => simp [mapErrorList, hc]

theorem mapErrorList_eq_NI (rs : List MappingRule) (e : ValidationError)
    (h : ∀ r ∈ rs, r.condition e ≠ some true) : mapErrorList rs e = .NI := by
  induction rs with
  | nil => rfl
  | cons r rs ih =>
    rw [mapErrorList_skip r rs e (h r (by simp))]
    exact ih fun x hx => h x (by simp [hx])

theorem mem_insertRule (a r : MappingRule) (l : List MappingRule) :
    a ∈ insertRule r l ↔ a = r ∨ a ∈ l := by
  induction l with
  | nil => simp [insertRule]
  | cons x xs ih =>
    unfold insertRule
    by_cases h : x.priority ≤ r.priority
    · simp only [if_pos h, List.mem_cons, ih]
      tauto
    · simp only [if_neg h, List.mem_cons]

/-- The rule list is sorted ascending by priority. -/
def rulesSortedByPriority (l : List MappingRule) : Prop :=
  l.Pairwise fun a b => a.priority ≤ b.priority

theorem insertRule_sorted (r : MappingRule) (l : List MappingRule)
    (h : rulesSortedByPriority l) : rulesSortedByPriority (insertRule r l) := by
  induction l with
  | nil => simp [insertRule, rulesSortedByPriority]
  | cons x xs ih =>
    rw [rulesSortedByPriority, List.pairwise_cons] at h
    obtain ⟨hx, hxs⟩ := h
    unfold insertRule
    by_cases hle : x.priority ≤ r.priority
    · rw [if_pos hle]
      rw [rulesSortedByPriority, List.pairwise_cons]
      refine ⟨?_, ih hxs⟩
      intro b hb
      rcases (mem_insertRule b r xs).mp hb with hbr | hbx
      · exact hbr ▸ hle
      · exact hx b hbx
    · rw [if_neg hle]
      rw [rulesSortedByPriority, List.pairwise_cons]
      refine ⟨?_, ?_⟩
      · intro b hb
        rcases List.mem_cons.mp hb with hbx | hbxs
        · exact hbx ▸ le_of_lt (lt_of_not_le hle)
        · exact le_trans (le_of_lt (lt_of_not_le hle)) (hx b hbxs)
      · exact List.Pairwise.cons hx hxs

theorem sortRules_sorted (l : List MappingRule) : rulesSortedByPriority (sortRules l) := by
  suffices h : ∀ acc, rulesSortedByPriority acc →
      rulesSortedByPriority (l.foldl (fun acc r => insertRule r acc) acc) from
    h [] List.Pairwise.nil
  induction l with
  | nil => intro acc hacc; exact hacc
  | cons r rs ih =>
    intro acc hacc
    exact ih (insertRule r acc) (insertRule_sorted r acc hacc)

/-! ## Claim C1 -/

/-- C1: for every ValidationError e (including one with an empty message),
`ErrorMapper.mapError` always returns one of the 15 fixed codes (it is total
and never raises); a rule whose condition throws (modelled `none`) is treated
as non-matching and evaluation continues with the remaining rules; and when no
rule matches — in particular after `clearRules` removed the catch-all — the
fixed fallback code NI is returned. -/
theorem C1_mapError_total (m : ErrorMapper) (e : ValidationError) :
    m.mapError e ∈ allEVTypes ∧
    (∀ (r : MappingRule) (rs : List MappingRule), r.condition e = none →
      ErrorMapper.mapError ⟨r :: rs⟩ e = ErrorMapper.mapError ⟨rs⟩ e) ∧
    ((∀ r ∈ m.rules, r.condition e ≠ some true) → m.mapError e = .NI) ∧
    m.clearRules.mapError e = .NI := by
  refine ⟨evType_mem_allEVTypes _, ?_, ?_, rfl⟩
  · intro r rs h
    exact mapErrorList_skip r rs e (by simp [h])
  · intro h
    exact mapErrorList_eq_NI m.rules e h

/-- A ValidationError with an empty message, used by witnesses. -/
def emptyMsgError : ValidationError := { message := "" }

/-- Witness for C1: concrete instances with the hypotheses discharged — the
default mapper classifies the empty-message error into the taxonomy, a
throwing rule is skipped, the no-rule-matches fallback and the cleared mapper
both give NI. -/
theorem C1_witness :
    defaultErrorMapper.mapError emptyMsgError ∈ allEVTypes ∧
    ErrorMapper.mapError ⟨[⟨fun _ => none, .INV, 5⟩]⟩ emptyMsgError =
      ErrorMapper.mapError ⟨[]⟩ emptyMsgError ∧
    ErrorMapper.mapError ⟨[]⟩ emptyMsgError = .NI ∧
    defaultErrorMapper.clearRules.mapError emptyMsgError = .NI :=
  ⟨(C1_mapError_total defaultErrorMapper emptyMsgError).1,
   (C1_mapError_total defaultErrorMapper emptyMsgError).2.1 ⟨fun _ => none, .INV, 5⟩ [] rfl,
   (C1_mapError_total ⟨[]⟩ emptyMsgError).2.2.1 (fun r hr => absurd hr (List.not_mem_nil r)),
   (C1_mapError_total defaultErrorMapper emptyMsgError).2.2.2⟩

/-! ## Claim C3 -/

/-- C3: if two rules r1 and r2 both evaluate true on e and r1 has the strictly
lower priority value, `mapError` returns r1.evType regardless of the order the
two rules were passed to `addRule`; moreover `addRule` leaves the active rule
list sorted ascending by priority on every insertion. -/
theorem C3_lower_priority_wins (c1 c2 : ValidationError → Option Bool)
    (t1 t2 : ExceptionalValueType) (p1 p2 : Int) (e : ValidationError) (m : ErrorMapper)
    (cond0 : ValidationError → Option Bool) (t0 : ExceptionalValueType) (p0 : Int)
    (h1 : c1 e = some true) (h2 : c2 e = some true) (hp : p1 < p2) :
    ((ErrorMapper.addRule (ErrorMapper.addRule ⟨[]⟩ c1 t1 p1) c2 t2 p2).mapError e = t1 ∧
     (ErrorMapper.addRule (ErrorMapper.addRule ⟨[]⟩ c2 t2 p2) c1 t1 p1).mapError e = t1) ∧
    rulesSortedByPriority (m.addRule cond0 t0 p0).rules := by
  refine ⟨⟨?_, ?_⟩, sortRules_sorted _⟩
  · show mapErrorList (sortRules ([⟨c1, t1, p1⟩] ++ [⟨c2, t2, p2⟩])) e = t1
    have hs : sortRules ([(⟨c1, t1, p1⟩ : MappingRule)] ++ [⟨c2, t2, p2⟩]) =
        [⟨c1, t1, p1⟩, ⟨c2, t2, p2⟩] := by
      simp [sortRules, insertRule, le_of_lt hp]
    rw [hs]
    simp [mapErrorList, h1]
  · show mapErrorList (sortRules ([⟨c2, t2, p2⟩] ++ [⟨c1, t1, p1⟩])) e = t1
    have hs : sortRules ([(⟨c2, t2, p2⟩ : MappingRule)] ++ [⟨c1, t1, p1⟩]) =
        [⟨c1, t1, p1⟩, ⟨c2, t2, p2⟩] := by
      simp [sortRules, insertRule, not_le.mpr hp]
    rw [hs]
    simp [mapErrorList, h1]

/-- Witness for C3 at concrete rules (priorities 1 < 2, both conditions true
on the empty-message error). -/
theorem C3_witness :
    ((ErrorMapper.addRule (ErrorMapper.addRule ⟨[]⟩ (fun _ => some true) .MSK 1)
        (fun _ => some true) .OTH 2).mapError emptyMsgError = .MSK ∧
     (ErrorMapper.addRule (ErrorMapper.addRule ⟨[]⟩ (fun _ => some true) .OTH 2)
        (fun _ => some true) .MSK 1).mapError emptyMsgError = .MSK) ∧
    rulesSortedByPriority (ErrorMapper.addRule ⟨[]⟩ (fun _ => some true) .MSK 1).rules :=
  C3_lower_priority_wins (fun _ => some true) (fun _ => some true) .MSK .OTH 1 2
    emptyMsgError ⟨[]⟩ (fun _ => some true) .MSK 1 rfl rfl (by decide)

/-! ## Substring lemmas -/

theorem listSubstrAt_append (xs ps ys : List Char) :
    listSubstrAt (xs ++ (ps ++ ys)) ps xs.length = true := by
  unfold listSubstrAt
  rw [List.drop_left, List.take_left ps ys]
  simp

theorem listContains_middle (xs ps ys : List Char) :
    listContains (xs ++ (ps ++ ys)) ps = true := by
  refine List.any_eq_true.mpr ⟨xs.length, ?_, listSubstrAt_append xs ps ys⟩
  refine List.mem_range.mpr ?_
  simp only [List.length_append]
  omega

theorem containsStr_middle (x p y : String) : containsStr (x ++ (p ++ y)) p = true := by
  unfold containsStr
  rw [String.data_append, String.data_append]
  exact listContains_middle x.data p.data y.data

theorem containsStr_right (x p : String) : containsStr (x ++ p) p = true := by
  have h := containsStr_middle x p ""
  rwa [String.append_empty] at h

/-! ## Claim C4 -/

/-- C4: in STRICT mode, whenever the external validator returns one or more
ValidationErrors, `validateWithRecovery` fails with the aggregate message that
references the error count and the first error message, and no ErrorLocation
is ever passed to the InstanceModifier on that path (the injected trace is
empty). -/
theorem C4_strict_throws (m : ErrorMapper) (pfx : String) (e : ValidationError)
    (es : List ValidationError) (removeExistingEV : Bool) (doc : XNode) :
    (validateWithRecovery .strict m pfx (e :: es) removeExistingEV doc).result =
      .error (strictFailureMessage (e :: es)) ∧
    containsStr (strictFailureMessage (e :: es)) (toString (e :: es).length) = true ∧
    containsStr (strictFailureMessage (e :: es)) e.message = true ∧
    (validateWithRecovery .strict m pfx (e :: es) removeExistingEV doc).injected = [] := by
  refine ⟨?_, ?_, ?_, ?_⟩
  · simp [validateWithRecovery]
  · show containsStr ("Validation failed with " ++ toString (e :: es).length ++
      " error(s): " ++ e.message) (toString (e :: es).length) = true
    rw [String.append_assoc, String.append_assoc]
    exact containsStr_middle _ _ _
  · show containsStr ("Validation failed with " ++ toString (e :: es).length ++
      " error(s): " ++ e.message) e.message = true
    exact containsStr_right _ _
  · simp [validateWithRecovery]

/-! ## Claim C5 -/

/-- C5: in SKIP mode the external validator capability is never invoked and the
schema is never loaded; `validateWithRecovery` returns the (cloned, optionally
marker-stripped) document; and `validateAndReport` reports valid with zero
errors for every input, independent of what the validator would have
returned. -/
theorem C5_skip_mode (m : ErrorMapper) (pfx : String) (errors : List ValidationError)
    (removeExistingEV : Bool) (doc : XNode) :
    (validateWithRecovery .skip m pfx errors removeExistingEV doc).result =
      .ok (if removeExistingEV then removeExceptionalValues doc else doc) ∧
    (validateWithRecovery .skip m pfx errors removeExistingEV doc).schemaLoaded = false ∧
    (validateWithRecovery .skip m pfx errors removeExistingEV doc).validatorInvoked = false ∧
    (iterErrorsWithMapping .skip m errors).validatorInvoked = false ∧
    (iterErrorsWithMapping .skip m errors).schemaLoaded = false ∧
    (validateAndReport .skip m errors).valid = true ∧
    (validateAndReport .skip m errors).errorCount = 0 := by
  refine ⟨?_, ?_, ?_, ?_, ?_, ?_, ?_⟩ <;>
    simp [validateWithRecovery, iterErrorsWithMapping, validateAndReport]

/-! ## Claim C9 -/

/-- Number of `xmlns:<pfx>` declaration attributes on a node. -/
def countNsAttr (pfx : String) (t : XNode) : Nat :=
  t.attrsOf.countP fun a => a.1 == "xmlns:" ++ pfx

theorem ensureSDC4Namespace_element (pfx : String) (ns : Option String) (n l : String)
    (a : List (String × String)) (cs : List XNode) :
    ensureSDC4Namespace (.element ns n l a cs) pfx =
      if a.any (fun x => x.1 == "xmlns:" ++ pfx) then XNode.element ns n l a cs
      else .element ns n l (a ++ [("xmlns:" ++ pfx, SDC4_NAMESPACE)]) cs := rfl

theorem ensure_count_eq_one (pfx : String) (ns : Option String) (n l : String)
    (a : List (String × String)) (cs : List XNode)
    (h : countNsAttr pfx (.element ns n l a cs) ≤ 1) :
    countNsAttr pfx (ensureSDC4Namespace (.element ns n l a cs) pfx) = 1 := by
  have h2 : (a.countP fun x => x.1 == "xmlns:" ++ pfx) ≤ 1 := h
  rw [ensureSDC4Namespace_element]
  by_cases hany : a.any fun x => x.1 == "xmlns:" ++ pfx
  · rw [if_pos hany]
    have hpos : 0 < a.countP fun x => x.1 == "xmlns:" ++ pfx := by
      obtain ⟨x, hx, hpx⟩ := List.any_eq_true.mp hany
      exact List.countP_pos_iff.mpr ⟨x, hx, hpx⟩
    show (a.countP fun x => x.1 == "xmlns:" ++ pfx) = 1
    omega
  · rw [if_neg hany]
    have hz : (a.countP fun x => x.1 == "xmlns:" ++ pfx) = 0 := by
      refine List.countP_eq_zero.mpr ?_
      intro x hx hpx
      exact hany (List.any_eq_true.mpr ⟨x, hx, hpx⟩)
    show ((a ++ [("xmlns:" ++ pfx, SDC4_NAMESPACE)]).countP
      fun x => x.1 == "xmlns:" ++ pfx) = 1
    rw [List.countP_append, hz]
    simp

theorem ensure_fixed_of_count_one (pfx : String) (ns : Option String) (n l : String)
    (a : List (String × String)) (cs : List XNode)
    (h : countNsAttr pfx (.element ns n l a cs) = 1) :
    ensureSDC4Namespace (.element ns n l a cs) pfx = .element ns n l a cs := by
  have hpos : 0 < a.countP fun x => x.1 == "xmlns:" ++ pfx := by
    have h2 : (a.countP fun x => x.1 == "xmlns:" ++ pfx) = 1 := h
    omega
  obtain ⟨x, hx, hpx⟩ := List.countP_pos_iff.mp hpos
  rw [ensureSDC4Namespace_element, if_pos (List.any_eq_true.mpr ⟨x, hx, hpx⟩)]

/-- C9: for every document whose root is an element and for every prefix,
applying `ensureSDC4Namespace` any number N ≥ 1 of times leaves exactly one
`xmlns:<pfx>` declaration attribute on the root (the declaration is only added
when not already present); the hypothesis `≤ 1` states the DOM well-formedness
fact that a parsed element cannot carry a duplicated attribute name. -/
theorem C9_namespace_declared_once (pfx : String) (N : Nat) (ns : Option String)
    (n l : String) (a : List (String × String)) (cs : List XNode)
    (hN : 1 ≤ N) (h : countNsAttr pfx (.element ns n l a cs) ≤ 1) :
    countNsAttr pfx
      ((fun d => ensureSDC4Namespace d pfx)^[N] (.element ns n l a cs)) = 1 := by
  obtain ⟨k, rfl⟩ : ∃ k, N = k + 1 := ⟨N - 1, by omega⟩
  rw [Function.iterate_succ_apply]
  have hshape : ∃ a2, ensureSDC4Namespace (.element ns n l a cs) pfx =
      .element ns n l a2 cs := by
    rw [ensureSDC4Namespace_element]
    by_cases hany : a.any fun x => x.1 == "xmlns:" ++ pfx
    · exact ⟨a, by rw [if_pos hany]⟩
    · exact ⟨a ++ [("xmlns:" ++ pfx, SDC4_NAMESPACE)], by rw [if_neg hany]⟩
  obtain ⟨a2, ha2⟩ := hshape
  have hc1 : countNsAttr pfx (.element ns n l a2 cs) = 1 := by
    rw [← ha2]
    exact ensure_count_eq_one pfx ns n l a cs h
  show countNsAttr pfx
    ((fun d => ensureSDC4Namespace d pfx)^[k] (ensureSDC4Namespace (.element ns n l a cs) pfx)) = 1
  rw [ha2, Function.iterate_fixed (ensure_fixed_of_count_one pfx ns n l a2 cs hc1)]
  exact hc1

/-- Witness for C9: three applications on a bare root element leave exactly one
declaration. -/
theorem C9_witness :
    1 ≤ 3 ∧ countNsAttr "sdc4" (.element none "root" "root" [] []) ≤ 1 ∧
    countNsAttr "sdc4"
      ((fun d => ensureSDC4Namespace d "sdc4")^[3] (XNode.element none "root" "root" [] [])) = 1 :=
  ⟨by decide, by decide,
   C9_namespace_declared_once "sdc4" 3 none "root" "root" [] [] (by decide) (by decide)⟩

/-! ## Claim C10 -/

/-- C10: for schema sources given as content (a string whose trimmed form
starts with "<"), `loadSchema` keys the cache on "content:" plus only the
first 100 characters; hence for two distinct schema strings agreeing on their
first 100 characters, the cached second call returns the first schema instead
of the second one. -/
theorem C10_cache_first100 (readFileF : String → String) (s1 s2 : String)
    (h1 : isContentSource s1 = true) (h2 : isContentSource s2 = true)
    (hpfx : s1.take 100 = s2.take 100) :
    (loadSchema readFileF [] s1 true).1 = s1 ∧
    (loadSchema readFileF (loadSchema readFileF [] s1 true).2 s2 true).1 = s1 ∧
    (s1 ≠ s2 → (loadSchema readFileF (loadSchema readFileF [] s1 true).2 s2 true).1 ≠ s2) := by
  have hfirst : loadSchema readFileF [] s1 true =
      (s1, [("content:" ++ s1.take 100, s1)]) := by
    unfold loadSchema
    rw [if_pos h1]
    simp [List.find?]
  have hsecond : (loadSchema readFileF (loadSchema readFileF [] s1 true).2 s2 true).1 = s1 := by
    rw [hfirst]
    unfold loadSchema
    rw [if_pos h2]
    simp [List.find?, hpfx]
  refine ⟨by rw [hfirst], hsecond, ?_⟩
  intro hne
  rw [hsecond]
  exact fun hc => hne hc

/-- A content schema string: "<" followed by 99 copies of 'a' and an 'x'. -/
def c10s1 : String := "<" ++ String.mk (List.replicate 99 'a') ++ "x"

/-- A different content schema string agreeing with `c10s1` on the first 100
characters. -/
def c10s2 : String := "<" ++ String.mk (List.replicate 99 'a') ++ "y"

set_option maxRecDepth 40000

/-- Witness for C10: the two concrete schema strings above collide in the
cache and the second load returns the first schema. -/
theorem C10_witness :
    (isContentSource c10s1 = true ∧ isContentSource c10s2 = true ∧
     c10s1.take 100 = c10s2.take 100 ∧ c10s1 ≠ c10s2) ∧
    (loadSchema (fun _ => "") (loadSchema (fun _ => "") [] c10s1 true).2 c10s2 true).1 = c10s1 ∧
    (loadSchema (fun _ => "") (loadSchema (fun _ => "") [] c10s1 true).2 c10s2 true).1 ≠ c10s2 :=
  ⟨⟨by decide, by decide, by decide, by decide⟩,
   (C10_cache_first100 (fun _ => "") c10s1 c10s2 (by decide) (by decide) (by decide)).2.1,
   (C10_cache_first100 (fun _ => "") c10s1 c10s2 (by decide) (by decide) (by decide)).2.2
     (by decide)⟩

/-! ## Claim C6 -/

theorem code_mem_allCodeStrings (t : ExceptionalValueType) :
    (EXCEPTIONAL_VALUE_METADATA t).code ∈ allCodeStrings := by
  cases t <;> decide

theorem bumpCount_keys (counts : List (String × Nat)) (k : String) :
    (bumpCount counts k).map Prod.fst = counts.map Prod.fst := by
  unfold bumpCount
  split
  · rw [List.map_map]
    refine List.map_congr_left ?_
    intro c _
    by_cases h : c.1 = k
    · simp [h]
    · simp [h]
  · rfl

theorem mapBump_eq_self (k : String) (counts : List (String × Nat))
    (h : ∀ c ∈ counts, (c.1 == k) = false) :
    counts.map (fun c => if c.1 == k then (c.1, c.2 + 1) else c) = counts := by
  induction counts with
  | nil => rfl
  | cons c cs ih =>
    rw [List.map_cons, if_neg (by simp [h c (by simp)]), ih fun x hx => h x (by simp [hx])]

theorem sumSnd_mapBump (k : String) : ∀ counts : List (String × Nat),
    (counts.map Prod.fst).Nodup → k ∈ counts.map Prod.fst →
    ((counts.map fun c => if c.1 == k then (c.1, c.2 + 1) else c).map Prod.snd).sum =
      (counts.map Prod.snd).sum + 1 := by
  intro counts
  induction counts with
  | nil => intro _ hmem; simp at hmem
  | cons c cs ih =>
    intro hnodup hmem
    rw [List.map_cons, List.nodup_cons] at hnodup
    by_cases hck : c.1 = k
    · have htail : ∀ x ∈ cs, (x.1 == k) = false := by
        intro x hx
        have hxk : x.1 ≠ k := by
          intro hxx
          exact hnodup.1 (hck ▸ hxx ▸ List.mem_map.mpr ⟨x, hx, rfl⟩)
        simp [hxk]
      rw [List.map_cons, if_pos (by simp [hck]), mapBump_eq_self k cs htail]
      simp only [List.map_cons, List.sum_cons]
      omega
    · have hmem2 : k ∈ cs.map Prod.fst := by
        rcases List.mem_map.mp hmem with ⟨x, hx, hxk⟩
        rcases List.mem_cons.mp hx with hhead | htl
        · exact absurd (hhead ▸ hxk) hck
        · exact List.mem_map.mpr ⟨x, htl, hxk⟩
      rw [List.map_cons, if_neg (by simp [hck])]
      simp only [List.map_cons, List.sum_cons]
      rw [ih hnodup.2 hmem2]
      omega

theorem sumSnd_bumpCount (counts : List (String × Nat)) (k : String)
    (hnodup : (counts.map Prod.fst).Nodup) (hmem : k ∈ counts.map Prod.fst) :
    ((bumpCount counts k).map Prod.snd).sum = (counts.map Prod.snd).sum + 1 := by
  have hany : (counts.any fun c => c.1 == k) = true := by
    obtain ⟨c, hc, hck⟩ := List.mem_map.mp hmem
    exact List.any_eq_true.mpr ⟨c, hc, by simp [hck]⟩
  unfold bumpCount
  rw [if_pos hany]
  exact sumSnd_mapBump k counts hnodup hmem

theorem foldl_bump_invariant (l : List String) : ∀ counts : List (String × Nat),
    counts.map Prod.fst = allCodeStrings → (∀ s ∈ l, s ∈ allCodeStrings) →
    ((l.foldl bumpCount counts).map Prod.fst = allCodeStrings ∧
     ((l.foldl bumpCount counts).map Prod.snd).sum =
       (counts.map Prod.snd).sum + l.length) := by
  induction l with
  | nil => intro counts hk _; exact ⟨hk, by simp⟩
  | cons s ss ih =>
    intro counts hk hl
    rw [List.foldl_cons]
    have hkeys : (bumpCount counts s).map Prod.fst = allCodeStrings := by
      rw [bumpCount_keys]; exact hk
    have hnodup : (counts.map Prod.fst).Nodup := by rw [hk]; decide
    have hmem : s ∈ counts.map Prod.fst := by rw [hk]; exact hl s (by simp)
    obtain ⟨ha, hb⟩ := ih (bumpCount counts s) hkeys fun x hx => hl x (by simp [hx])
    refine ⟨ha, ?_⟩
    rw [hb, sumSnd_bumpCount counts s hnodup hmem]
    simp only [List.length_cons]
    omega

theorem iter_evType_mem (mode : ValidationMode) (m : ErrorMapper)
    (errors : List ValidationError) :
    ∀ v ∈ (iterErrorsWithMapping mode m errors).summaries,
      v.exceptionalValueType ∈ allCodeStrings := by
  intro v hv
  unfold iterErrorsWithMapping at hv
  split at hv
  · simp at hv
  · simp only at hv
    rcases List.mem_map.mp hv with ⟨e, _, rfl⟩
    exact code_mem_allCodeStrings (m.mapError e)

/-- C6: in every report produced by `validateAndReport`, the counts map
contains exactly the 15 classification codes (initialised at 0 and incremented
per classified error), the sum of all count values equals errorCount, and
valid holds exactly when errorCount is 0. -/
theorem C6_report_invariants (mode : ValidationMode) (m : ErrorMapper)
    (errors : List ValidationError) :
    ((validateAndReport mode m errors).exceptionalValueTypeCounts.map Prod.fst =
      allCodeStrings) ∧
    (((validateAndReport mode m errors).exceptionalValueTypeCounts.map Prod.snd).sum =
      (validateAndReport mode m errors).errorCount) ∧
    ((validateAndReport mode m errors).valid = true ↔
      (validateAndReport mode m errors).errorCount = 0) := by
  unfold validateAndReport
  simp only
  have hfold : (iterErrorsWithMapping mode m errors).summaries.foldl
      (fun acc e => bumpCount acc e.exceptionalValueType) initTypeCounts =
      ((iterErrorsWithMapping mode m errors).summaries.map
        (fun e => e.exceptionalValueType)).foldl bumpCount initTypeCounts := by
    rw [List.foldl_map]
  have hl : ∀ s ∈ (iterErrorsWithMapping mode m errors).summaries.map
      (fun e => e.exceptionalValueType), s ∈ allCodeStrings := by
    intro s hs
    rcases List.mem_map.mp hs with ⟨v, hv, rfl⟩
    exact iter_evType_mem mode m errors v hv
  have hinit : initTypeCounts.map Prod.fst = allCodeStrings := by decide
  obtain ⟨ha, hb⟩ := foldl_bump_invariant
    ((iterErrorsWithMapping mode m errors).summaries.map fun e => e.exceptionalValueType)
    initTypeCounts hinit hl
  refine ⟨by rw [hfold]; exact ha, ?_, by simp⟩
  rw [hfold, hb]
  simp [initTypeCounts, allCodeStrings]

/-! ## Claim C7 -/

/-- Payload of a comment node. -/
def commentText : XNode → Option String
  | .comment s => some s
  | _ => none

/-- Texts of the comment nodes among the direct children. -/
def commentChildren (t : XNode) : List String :=
  t.childrenOf.filterMap commentText

/-- The `ev-name` child a marker element carries. -/
def evNameChild (pfx : String) (err : ErrorLocation) : XNode :=
  .element (some SDC4_NAMESPACE) (pfx ++ ":" ++ "ev-name") "ev-name" []
    [.text (EXCEPTIONAL_VALUE_METADATA err.evType).name]

/-- C7 counterexample: for the ErrorLocation with reason "bad age" the marker
contains exactly one comment child and its text is " Validation error: bad
age ", which is not equal to the raw reason text "bad age" — refuting the
claim that the comment text content equals the raw reason. -/
theorem C7_counterexample :
    commentChildren (createExceptionalValueElement "sdc4" ⟨"/root/x", .INV, "bad age"⟩) =
      [" Validation error: bad age "] ∧
    " Validation error: bad age " ≠ "bad age" :=
  ⟨rfl, by decide⟩

/-- C7 amended: for every ErrorLocation with a non-empty reason, the marker
element carries — after the ev-name first child — exactly one comment node,
whose text is " Validation error: " followed by the raw reason and a space
(so it contains the raw reason but is not equal to it); when the reason is
empty no comment node is added. -/
theorem C7_comment_decorated_reason (pfx : String) (err : ErrorLocation) :
    (err.reason ≠ "" →
      (createExceptionalValueElement pfx err).childrenOf.head? =
        some (evNameChild pfx err) ∧
      XNode.comment (" Validation error: " ++ err.reason ++ " ") ∈
        (createExceptionalValueElement pfx err).childrenOf.tail ∧
      commentChildren (createExceptionalValueElement pfx err) =
        [" Validation error: " ++ err.reason ++ " "] ∧
      containsStr (" Validation error: " ++ err.reason ++ " ") err.reason = true) ∧
    (err.reason = "" →
      commentChildren (createExceptionalValueElement pfx err) = []) := by
  constructor
  · intro h
    refine ⟨?_, ?_, ?_, ?_⟩
    · simp [createExceptionalValueElement, XNode.childrenOf, evNameChild, h]
    · simp [createExceptionalValueElement, XNode.childrenOf, h]
    · simp [createExceptionalValueElement, commentChildren, commentText, XNode.childrenOf, h]
    · rw [String.append_assoc]
      exact containsStr_middle _ _ _
  · intro h
    simp [createExceptionalValueElement, commentChildren, commentText, XNode.childrenOf, h]

/-- Witness for C7 amended at two concrete ErrorLocations, one with reason
"bad age" and one with the empty reason. -/
theorem C7_witness :
    (("bad age" : String) ≠ "" ∧
     commentChildren (createExceptionalValueElement "sdc4" ⟨"/r/x", .NI, "bad age"⟩) =
       [" Validation error: bad age "] ∧
     containsStr " Validation error: bad age " "bad age" = true) ∧
    commentChildren (createExceptionalValueElement "sdc4" ⟨"/r/x", .NI, ""⟩) = [] :=
  ⟨⟨by decide,
    ((C7_comment_decorated_reason "sdc4" ⟨"/r/x", .NI, "bad age"⟩).1 (by decide)).2.2.1,
    ((C7_comment_decorated_reason "sdc4" ⟨"/r/x", .NI, "bad age"⟩).1 (by decide)).2.2.2⟩,
   (C7_comment_decorated_reason "sdc4" ⟨"/r/x", .NI, ""⟩).2 rfl⟩

/-! ## Claim C8 -/

/-- Is this node an element? -/
def isElementNode : XNode → Bool
  | .element _ _ _ _ _ => true
  | _ => false

/-- The element children of a node, in order. -/
def elementChildren (t : XNode) : List XNode :=
  t.childrenOf.filter isElementNode

/-- The scenario document `<root><person><name>John</name></person></root>`. -/
def c8name : XNode := .element none "name" "name" [] [.text "John"]

def c8person : XNode := .element none "person" "person" [] [c8name]

def c8doc : XNode := .element none "root" "root" [] [c8person]

/-- The scenario ErrorLocation. -/
def c8loc : ErrorLocation := ⟨"/root/person/age", .INV, "bad age"⟩

/-- The scenario marker element. -/
def c8marker : XNode := createExceptionalValueElement "sdc4" c8loc

/-- The scenario document after injection. -/
def c8result : XNode := injectExceptionalValues "sdc4" c8doc [c8loc]

/-- The `<person>` element of the scenario document after injection. -/
def c8personAfter : XNode := (descend ["person"] c8result).getD (XNode.text "")

/-- C8 counterexample: in the scenario, the new first child of `<person>`
after injecting {xpath: "/root/person/age", code: INV} is the formatting text
node "\n  " — a non-element that is not the sdc4:INV marker — refuting the
claim that the marker element is inserted as the first child. -/
theorem C8_counterexample :
    c8personAfter.childrenOf.head? = some (XNode.text "\n  ") ∧
    isElementNode (XNode.text "\n  ") = false ∧
    isExceptionalValueElement (XNode.text "\n  ") = false :=
  ⟨rfl, rfl, rfl⟩

/-- C8 amended: each marker is inserted before the previous first child of the
parent and a whitespace-only formatting text node is then placed immediately
before it, so the marker becomes the first element child (the second node
overall) and, when several ErrorLocations resolve to the same parent, the
markers end up in reverse processing order among the element children; in the
scenario, the children of `<person>` become the text node, the sdc4:INV
marker, then `<name>`, so the marker is the first element child and precedes
`<name>`. -/
theorem C8_insert_first_element_child (pfx : String) (e1 e2 : ErrorLocation)
    (ns : Option String) (n l : String) (a : List (String × String))
    (c0 : XNode) (cs : List XNode) :
    ((insertElement (createExceptionalValueElement pfx e1)
        (.element ns n l a (c0 :: cs))).childrenOf =
      XNode.text "\n  " :: createExceptionalValueElement pfx e1 :: c0 :: cs) ∧
    (elementChildren (insertElement (createExceptionalValueElement pfx e1)
        (.element ns n l a (c0 :: cs))) =
      createExceptionalValueElement pfx e1 ::
        elementChildren (.element ns n l a (c0 :: cs))) ∧
    (elementChildren (insertGroup pfx [e1, e2] (.element ns n l a (c0 :: cs))) =
      createExceptionalValueElement pfx e2 :: createExceptionalValueElement pfx e1 ::
        elementChildren (.element ns n l a (c0 :: cs))) ∧
    c8personAfter.childrenOf = [XNode.text "\n  ", c8marker, c8name] ∧
    elementChildren c8personAfter = [c8marker, c8name] := by
  have htext : ∀ s, isElementNode (XNode.text s) = false := fun _ => rfl
  have hElem : ∀ (p : String) (er : ErrorLocation),
      isElementNode (createExceptionalValueElement p er) = true := by
    intro p er
    simp [createExceptionalValueElement, isElementNode]
  refine ⟨rfl, ?_, ?_, rfl, ?_⟩
  · simp [insertElement, elementChildren, XNode.childrenOf, List.filter_cons,
      hElem pfx e1, htext]
  · show elementChildren (insertElement (createExceptionalValueElement pfx e2)
      (insertElement (createExceptionalValueElement pfx e1)
        (.element ns n l a (c0 :: cs)))) = _
    rw [show insertElement (createExceptionalValueElement pfx e1)
        (XNode.element ns n l a (c0 :: cs)) =
        .element ns n l a (XNode.text "\n  " :: createExceptionalValueElement pfx e1 ::
          c0 :: cs) from rfl]
    simp [insertElement, elementChildren, XNode.childrenOf, List.filter_cons,
      hElem pfx e1, hElem pfx e2, htext]
  · have h1 : c8personAfter.childrenOf = [XNode.text "\n  ", c8marker, c8name] := rfl
    have hm : isElementNode c8marker = true := hElem "sdc4" c8loc
    have hn : isElementNode c8name = true := rfl
    unfold elementChildren
    rw [h1]
    simp [List.filter_cons, hm, hn, htext]

/-! ## Claim C2: normal-form machinery

`nf t` is the document after removing all marker elements and then dropping
whitespace-only text nodes; "structurally equivalent modulo whitespace-only
text nodes" is equality of `stripWs` images. -/

def nf (t : XNode) : XNode := stripWs (removeExceptionalValues t)

def nfList (cs : List XNode) : List XNode := stripWsList (removeEVList cs)

theorem nf_element (ns : Option String) (n l : String) (a : List (String × String))
    (cs : List XNode) : nf (.element ns n l a cs) = .element ns n l a (nfList cs) := rfl

theorem removeEVList_cons (c : XNode) (cs : List XNode) :
    removeEVList (c :: cs) =
      if isExceptionalValueElement c then removeEVList cs
      else removeExceptionalValues c :: removeEVList cs := rfl

theorem stripWsList_cons (c : XNode) (cs : List XNode) :
    stripWsList (c :: cs) =
      if isWsText c then stripWsList cs else stripWs c :: stripWsList cs := rfl

theorem isWsText_removeEV (c : XNode) :
    isWsText (removeExceptionalValues c) = isWsText c := by
  cases c <;> rfl

theorem nfList_cons (c : XNode) (cs : List XNode) :
    nfList (c :: cs) =
      if isExceptionalValueElement c then nfList cs
      else if isWsText c then nfList cs else nf c :: nfList cs := by
  unfold nfList
  rw [removeEVList_cons]
  by_cases h1 : isExceptionalValueElement c = true
  · rw [if_pos h1, if_pos h1]
  · rw [if_neg h1, if_neg h1, stripWsList_cons, isWsText_removeEV]
    by_cases h2 : isWsText c = true
    · rw [if_pos h2, if_pos h2]
    · rw [if_neg h2, if_neg h2]
      rfl

theorem isEV_shapeOf (t : XNode) :
    isExceptionalValueElement t.shapeOf = isExceptionalValueElement t := by
  cases t with
  | element ns n l a cs => cases ns <;> rfl
  | text s => rfl
  | comment s => rfl

theorem isWsText_shapeOf (t : XNode) : isWsText t.shapeOf = isWsText t := by
  cases t <;> rfl

theorem isEV_text (s : String) : isExceptionalValueElement (XNode.text s) = false := rfl

theorem isWsText_nl : isWsText (XNode.text "\n  ") = true := by decide

theorem isEV_createEV (pfx : String) (err : ErrorLocation) :
    isExceptionalValueElement (createExceptionalValueElement pfx err) = true := by
  cases err with
  | mk xp t r => cases t <;> rfl

theorem nf_insertElement (m : XNode) (hm : isExceptionalValueElement m = true)
    (p : XNode) : nf (insertElement m p) = nf p := by
  cases p with
  | element ns n l a cs =>
    cases cs with
    | nil =>
      show nf (.element ns n l a [m]) = nf (.element ns n l a [])
      rw [nf_element, nf_element, nfList_cons, if_pos hm]
    | cons c0 cs' =>
      show nf (.element ns n l a (XNode.text "\n  " :: m :: c0 :: cs')) =
        nf (.element ns n l a (c0 :: cs'))
      rw [nf_element, nf_element]
      rw [nfList_cons (XNode.text "\n  "), if_neg (by simp [isEV_text]), if_pos isWsText_nl]
      rw [nfList_cons m, if_pos hm]
  | text s => rfl
  | comment s => rfl

theorem shape_insertElement (m p : XNode) : (insertElement m p).shapeOf = p.shapeOf := by
  cases p with
  | element ns n l a cs => cases cs <;> rfl
  | text s => rfl
  | comment s => rfl

theorem nf_insertGroup (pfx : String) (errs : List ErrorLocation) :
    ∀ p, nf (insertGroup pfx errs p) = nf p := by
  induction errs with
  | nil => intro p; rfl
  | cons e es ih =>
    intro p
    show nf (insertGroup pfx es
      (insertElement (createExceptionalValueElement pfx e) p)) = nf p
    rw [ih, nf_insertElement _ (isEV_createEV pfx e)]

theorem shape_insertGroup (pfx : String) (errs : List ErrorLocation) :
    ∀ p, (insertGroup pfx errs p).shapeOf = p.shapeOf := by
  induction errs with
  | nil => intro p; rfl
  | cons e es ih =>
    intro p
    show (insertGroup pfx es
      (insertElement (createExceptionalValueElement pfx e) p)).shapeOf = p.shapeOf
    rw [ih, shape_insertElement]

theorem nfList_updateChild (s : String) (G : XNode → XNode)
    (hG : ∀ t, nf (G t) = nf t) (hGs : ∀ t, (G t).shapeOf = t.shapeOf) :
    ∀ cs, nfList (updateChild s G cs) = nfList cs := by
  intro cs
  induction cs with
  | nil => rfl
  | cons c cs ih =>
    unfold updateChild
    by_cases hname : c.hasName s = true
    · rw [if_pos hname, nfList_cons, nfList_cons]
      have hEV : isExceptionalValueElement (G c) = isExceptionalValueElement c := by
        rw [← isEV_shapeOf (G c), hGs c, isEV_shapeOf c]
      have hWs : isWsText (G c) = isWsText c := by
        rw [← isWsText_shapeOf (G c), hGs c, isWsText_shapeOf c]
      rw [hEV, hWs, hG c]
    · rw [if_neg hname, nfList_cons, nfList_cons, ih]

theorem shape_updateAt (g : XNode → XNode) (hs : ∀ t, (g t).shapeOf = t.shapeOf) :
    ∀ (segs : List String) (t : XNode), (updateAt segs g t).shapeOf = t.shapeOf := by
  intro segs
  induction segs with
  | nil => exact hs
  | cons s rest _ =>
    intro t
    cases t <;> rfl

theorem nf_updateAt (g : XNode → XNode) (hg : ∀ t, nf (g t) = nf t)
    (hs : ∀ t, (g t).shapeOf = t.shapeOf) :
    ∀ (segs : List String) (t : XNode), nf (updateAt segs g t) = nf t := by
  intro segs
  induction segs with
  | nil => exact hg
  | cons s rest ih =>
    intro t
    cases t with
    | element ns n l a cs =>
      show nf (.element ns n l a (updateChild s (updateAt rest g) cs)) =
        nf (.element ns n l a cs)
      rw [nf_element, nf_element,
        nfList_updateChild s (updateAt rest g) ih (shape_updateAt g hs rest) cs]
    | text s0 => rfl
    | comment s0 => rfl

theorem nf_injectAtLocation (pfx : String) (pp : String) (errs : List ErrorLocation)
    (doc : XNode) : nf (injectAtLocation pfx pp errs doc) = nf doc := by
  unfold injectAtLocation
  split
  · exact nf_insertGroup pfx errs doc
  · split
    · rfl
    · split
      · exact nf_updateAt (insertGroup pfx errs) (nf_insertGroup pfx errs)
          (shape_insertGroup pfx errs) _ doc
      · rfl

theorem nf_inject_fold (pfx : String) (gs : List (String × List ErrorLocation)) :
    ∀ d, nf (gs.foldl (fun d g => injectAtLocation pfx g.1 g.2 d) d) = nf d := by
  induction gs with
  | nil => intro d; rfl
  | cons g gs ih =>
    intro d
    rw [List.foldl_cons, ih, nf_injectAtLocation]

theorem nf_injectExceptionalValues (pfx : String) (doc : XNode)
    (ls : List ErrorLocation) :
    nf (injectExceptionalValues pfx doc ls) = nf (ensureSDC4Namespace doc pfx) :=
  nf_inject_fold pfx (groupErrorsByParent ls) (ensureSDC4Namespace doc pfx)

theorem cleanList_cons (c : XNode) (cs : List XNode) :
    cleanList (c :: cs) = (cleanNode c && cleanList cs) := rfl

theorem cleanNode_element (ns : Option String) (n l : String)
    (a : List (String × String)) (cs : List XNode) :
    cleanNode (.element ns n l a cs) =
      (!isExceptionalValueElement (.element ns n l a cs) && cleanList cs) := rfl

theorem isEV_false_of_clean (t : XNode) (h : cleanNode t = true) :
    isExceptionalValueElement t = false := by
  cases t with
  | element ns n l a cs =>
    rw [cleanNode_element] at h
    have h1 := (Bool.and_eq_true _ _).mp h |>.1
    simpa using h1
  | text s => rfl
  | comment s => rfl

mutual
theorem removeEV_of_clean : ∀ t : XNode, cleanNode t = true →
    removeExceptionalValues t = t
  | .element ns n l a cs, h => by
    have h2 : cleanList cs = true := by
      rw [cleanNode_element] at h
      exact ((Bool.and_eq_true _ _).mp h).2
    show XNode.element ns n l a (removeEVList cs) = XNode.element ns n l a cs
    rw [removeEVList_of_clean cs h2]
  | .text _, _ => rfl
  | .comment _, _ => rfl
theorem removeEVList_of_clean : ∀ cs : List XNode, cleanList cs = true →
    removeEVList cs = cs
  | [], _ => rfl
  | c :: cs, h => by
    have hh := (Bool.and_eq_true _ _).mp (by rw [cleanList_cons] at h; exact h)
    rw [removeEVList_cons, if_neg (by simp [isEV_false_of_clean c hh.1]),
      removeEV_of_clean c hh.1, removeEVList_of_clean cs hh.2]
end

theorem cleanNode_ensure (pfx : String) (doc : XNode) (h : cleanNode doc = true) :
    cleanNode (ensureSDC4Namespace doc pfx) = true := by
  cases doc with
  | element ns n l a cs =>
    rw [ensureSDC4Namespace_element]
    split
    · exact h
    · rw [cleanNode_element] at h ⊢
      have hEV : isExceptionalValueElement
          (.element ns n l (a ++ [("xmlns:" ++ pfx, SDC4_NAMESPACE)]) cs) =
          isExceptionalValueElement (.element ns n l a cs) := by
        cases ns <;> rfl
      rw [hEV]
      exact h
  | text s => exact h
  | comment s => exact h

/-- The document `<root/>` for the C2 counterexample. -/
def c2doc : XNode := .element none "root" "root" [] []

/-- C2 counterexample: injecting an empty location batch into `<root/>` and
then removing all markers does not restore structural equivalence (even modulo
whitespace-only text nodes): the `xmlns:sdc4` declaration that injection added
to the root attribute list is not removed. -/
theorem C2_counterexample :
    stripWs (removeExceptionalValues (injectExceptionalValues "sdc4" c2doc [])) ≠
      stripWs c2doc ∧
    (stripWs (removeExceptionalValues
      (injectExceptionalValues "sdc4" c2doc []))).attrsOf =
      [("xmlns:sdc4", SDC4_NAMESPACE)] ∧
    (stripWs c2doc).attrsOf = [] := by
  refine ⟨?_, rfl, rfl⟩
  intro h
  have h2 : ([(("xmlns:sdc4" : String), SDC4_NAMESPACE)] : List (String × String)) = [] :=
    congrArg XNode.attrsOf h
  exact absurd h2 (by decide)

/-- C2 amended: provided the input document contains no marker element
already, `injectExceptionalValues` followed by `removeExceptionalValues`
yields a document structurally equivalent — modulo whitespace-only text
nodes — to the input document with the namespace declaration ensured on its
root; i.e. the removal pass undoes everything injection added except the
`xmlns:<pfx>` attribute added to the root. -/
theorem C2_inject_remove_roundtrip (pfx : String) (doc : XNode)
    (ls : List ErrorLocation) (hclean : cleanNode doc = true) :
    stripWs (removeExceptionalValues (injectExceptionalValues pfx doc ls)) =
      stripWs (ensureSDC4Namespace doc pfx) := by
  show nf (injectExceptionalValues pfx doc ls) = _
  rw [nf_injectExceptionalValues]
  show stripWs (removeExceptionalValues (ensureSDC4Namespace doc pfx)) = _
  rw [removeEV_of_clean _ (cleanNode_ensure pfx doc hclean)]

/-- The marker-free document used by the C2 witness. -/
def c2wdoc : XNode :=
  .element none "order" "order" []
    [.element none "item" "item" [] [.text "7"]]

/-- Witness for C2 amended: a concrete clean document and one ErrorLocation;
the round trip agrees with the namespace-ensured original. -/
theorem C2_witness :
    cleanNode c2wdoc = true ∧
    stripWs (removeExceptionalValues (injectExceptionalValues "sdc4" c2wdoc
      [⟨"/order/item/qty", .NI, "missing"⟩])) =
      stripWs (ensureSDC4Namespace c2wdoc "sdc4") :=
  ⟨rfl, C2_inject_remove_roundtrip "sdc4" c2wdoc
    [⟨"/order/item/qty", .NI, "missing"⟩] rfl⟩

end SDCV
